import Mathlib

/-!
Verification development for the SpoofDPI HTTPS DPI-evasion tunnel.

The definitions below are a shallow embedding of the Go source:
  - `src/proxy/handler/https.go` (the HTTPS handler: configuration,
    validation, constructor, chunker, chunk writer, tunnel orchestrator,
    forwarder teardown), and
  - the util package (CLI args and `Config.Load`).

Go byte slices are modelled as `List Nat`, Go `int` as `Int` (the claims
never exercise 64-bit overflow), Go `uint16` as `Nat` (values stay below
2^16 in all modelled paths, and only order comparisons are performed, so
the embedding agrees with wrap-around semantics). Compiled regular
expressions are modelled as abstract match predicates `String → Bool`.
Socket I/O is modelled by an explicit event trace; the outcome of each
external I/O call is supplied by a `ServeEnv` record.
-/

namespace SpoofDPI

/-- Embeds `HttpsHandlerConfig` (https.go lines 18-29).
`AllowedPatterns` holds compiled regexes, modelled as match predicates. -/
structure HttpsHandlerConfig where
  Timeout : Int
  WindowSize : Int
  AllowedPatterns : List (String → Bool)
  Exploit : Bool
  TimingRandomization : Bool
  TimingDelayMin : Nat
  TimingDelayMax : Nat

/-- Embeds `DefaultHttpsHandlerConfig` (https.go lines 32-42). -/
def DefaultHttpsHandlerConfig : HttpsHandlerConfig :=
  { Timeout := 0
    WindowSize := 0
    AllowedPatterns := []
    Exploit := true
    TimingRandomization := false
    TimingDelayMin := 5
    TimingDelayMax := 50 }

/-- Embeds `HttpsHandlerConfig.Validate` (https.go lines 45-59):
`some msg` models a non-nil `error`, `none` models `nil`. -/
def HttpsHandlerConfig.Validate (c : HttpsHandlerConfig) : Option String :=
  if c.Timeout < 0 then some "timeout cannot be negative"
  else if c.WindowSize < 0 then some "window size cannot be negative"
  else if c.TimingRandomization ∧ c.TimingDelayMax < c.TimingDelayMin then
    some "timing delay min cannot be greater than max"
  else none

/-- Embeds the `HttpsHandler` struct (https.go lines 61-66). -/
structure HttpsHandler where
  bufferSize : Nat
  protocol : String
  port : Int
  config : HttpsHandlerConfig

/-- A functional option (https.go line 69): Go mutates the config in
place; the embedding returns the updated record. -/
def HttpsHandlerOption : Type := HttpsHandlerConfig → HttpsHandlerConfig

/-- Embeds `WithTimeout` (https.go lines 72-76). -/
def WithTimeout (timeout : Int) : HttpsHandlerOption :=
  fun c => { c with Timeout := timeout }

/-- Embeds `WithWindowSize` (https.go lines 79-83). -/
def WithWindowSize (size : Int) : HttpsHandlerOption :=
  fun c => { c with WindowSize := size }

/-- Embeds `WithAllowedPatterns` (https.go lines 86-90). -/
def WithAllowedPatterns (patterns : List (String → Bool)) : HttpsHandlerOption :=
  fun c => { c with AllowedPatterns := patterns }

/-- Embeds `WithExploit` (https.go lines 93-97). -/
def WithExploit (exploit : Bool) : HttpsHandlerOption :=
  fun c => { c with Exploit := exploit }

/-- Embeds `WithTimingRandomization` (https.go lines 100-106). -/
def WithTimingRandomization (mn mx : Nat) : HttpsHandlerOption :=
  fun c => { c with TimingRandomization := true, TimingDelayMin := mn, TimingDelayMax := mx }

/-- Embeds `NewHttpsHandler` (https.go lines 116-137): start from the
defaults, apply every option in order, and fall back to the defaults
when validation of the final configuration fails. -/
def NewHttpsHandler (opts : List HttpsHandlerOption) : HttpsHandler :=
  let config := opts.foldl (fun c opt => opt c) DefaultHttpsHandlerConfig
  let config := match config.Validate with
    | some _ => DefaultHttpsHandlerConfig
    | none => config
  { bufferSize := 1024
    protocol := "HTTPS"
    port := 443
    config := config }

/-- The loop of `splitInChunks` for `size > 0` (https.go lines 257-274),
with an explicit fuel bound on the number of iterations. Each iteration
consumes at least one byte of `raw` when `0 < size`, so fuel
`raw.length` is enough; `chunkLoop` is only ever applied with that fuel
and a positive `size`. Go narrows `size` to `len(raw)` on the final
short chunk, and the narrowed value is what later iterations see, as in
the source. -/
def chunkLoop : Nat → List Nat → Nat → List (List Nat)
  | 0, _, _ => []
  | fuel + 1, raw, size =>
    if raw.length = 0 then []
    else
      let s := if raw.length < size then raw.length else size
      raw.take s :: chunkLoop fuel (raw.drop s) s

/-- Embeds `splitInChunks` (https.go lines 249-285). For `size > 0` the
fixed-window loop runs; for `size ≤ 0` an empty buffer yields one empty
chunk and a non-empty buffer yields the legacy two-chunk split
`raw[:1]`, `raw[1:]`. -/
def splitInChunks (bytes : List Nat) (size : Int) : List (List Nat) :=
  if 0 < size then chunkLoop bytes.length bytes size.toNat
  else if bytes.length < 1 then [bytes]
  else [bytes.take 1, bytes.drop 1]

example : splitInChunks [1, 2, 3, 4, 5] 2 = [[1, 2], [3, 4], [5]] := by decide
example : splitInChunks [1, 2, 3] 0 = [[1], [2, 3]] := by decide
example : splitInChunks [] 0 = [[]] := by decide
example : splitInChunks [] 3 = [] := by decide

theorem chunkLoop_nil (fuel size : Nat) : chunkLoop fuel [] size = [] := by
  cases fuel <;> rfl

theorem chunkLoop_flatten : ∀ (fuel : Nat) (raw : List Nat) (size : Nat),
    0 < size → raw.length ≤ fuel → (chunkLoop fuel raw size).flatten = raw
  | 0, raw, _ => by
    intro _ hf
    have hraw : raw = [] := List.eq_nil_of_length_eq_zero (Nat.le_zero.mp hf)
    subst hraw; rfl
  | fuel + 1, raw, size => by
    intro hs hf
    by_cases h : raw.length = 0
    · have hraw : raw = [] := List.eq_nil_of_length_eq_zero h
      subst hraw; rfl
    · have hpos : 0 < raw.length := Nat.pos_of_ne_zero h
      simp only [chunkLoop, if_neg h]
      set s := if raw.length < size then raw.length else size with hsdef
      have hs1 : 0 < s := by rw [hsdef]; split <;> omega
      have hlen : (raw.drop s).length ≤ fuel := by
        rw [List.length_drop]; omega
      rw [List.flatten_cons, chunkLoop_flatten fuel (raw.drop s) s hs1 hlen,
        List.take_append_drop]

theorem chunkLoop_length_mem : ∀ (fuel : Nat) (raw : List Nat) (size : Nat),
    0 < size → raw.length ≤ fuel →
    ∀ c ∈ chunkLoop fuel raw size, 1 ≤ c.length ∧ c.length ≤ size
  | 0, raw, _ => by
    intro _ _ c hc
    simp [chunkLoop] at hc
  | fuel + 1, raw, size => by
    intro hs hf c hc
    by_cases h : raw.length = 0
    · simp [chunkLoop, h] at hc
    · have hpos : 0 < raw.length := Nat.pos_of_ne_zero h
      simp only [chunkLoop, if_neg h] at hc
      set s := if raw.length < size then raw.length else size with hsdef
      have hs1 : 0 < s := by rw [hsdef]; split <;> omega
      have hss : s ≤ size := by rw [hsdef]; split <;> omega
      have hsr : s ≤ raw.length := by rw [hsdef]; split <;> omega
      have hlen : (raw.drop s).length ≤ fuel := by
        rw [List.length_drop]; omega
      rcases List.mem_cons.mp hc with hc | hc
      · subst hc
        rw [List.length_take]
        constructor <;> omega
      · have := chunkLoop_length_mem fuel (raw.drop s) s hs1 hlen c hc
        exact ⟨this.1, this.2.trans hss⟩

theorem chunkLoop_dropLast_length : ∀ (fuel : Nat) (raw : List Nat) (size : Nat),
    0 < size → raw.length ≤ fuel →
    ∀ c ∈ (chunkLoop fuel raw size).dropLast, c.length = size
  | 0, raw, _ => by
    intro _ _ c hc
    simp [chunkLoop] at hc
  | fuel + 1, raw, size => by
    intro hs hf c hc
    by_cases h : raw.length = 0
    · simp [chunkLoop, h] at hc
    · have hpos : 0 < raw.length := Nat.pos_of_ne_zero h
      simp only [chunkLoop, if_neg h] at hc
      set s := if raw.length < size then raw.length else size with hsdef
      by_cases hrest : chunkLoop fuel (raw.drop s) s = []
      · rw [hrest] at hc
        simp at hc
      · rw [List.dropLast_cons_of_ne_nil hrest] at hc
        have hdrop : raw.drop s ≠ [] := by
          intro hnil
          exact hrest (hnil ▸ chunkLoop_nil fuel s)
        have hlt : s < raw.length := by
          by_contra hge
          exact hdrop (List.drop_eq_nil_of_le (Nat.le_of_not_lt hge))
        have hseq : s = size := by
          by_cases hcond : raw.length < size
          · exfalso
            rw [hsdef, if_pos hcond] at hlt
            omega
          · rw [hsdef, if_neg hcond]
        have hs1 : 0 < s := hseq ▸ hs
        have hlen : (raw.drop s).length ≤ fuel := by
          rw [List.length_drop]; omega
        rcases List.mem_cons.mp hc with hc | hc
        · subst hc
          rw [List.length_take]
          omega
        · exact hseq ▸ chunkLoop_dropLast_length fuel (raw.drop s) s hs1 hlen c hc

theorem chunkLoop_eq_nil_iff (fuel : Nat) (raw : List Nat) (size : Nat)
    (hf : 0 < fuel ∨ raw = []) : (chunkLoop fuel raw size = [] ↔ raw = []) := by
  cases fuel with
  | zero =>
    rcases hf with hf | hf
    · omega
    · subst hf; simp [chunkLoop]
  | succ n =>
    cases raw with
    | nil => simp [chunkLoop]
    | cons a l =>
      constructor
      · intro hc
        simp only [chunkLoop] at hc
        rw [if_neg (by simp)] at hc
        exact absurd hc (by simp)
      · intro hc
        exact absurd hc (by simp)

/-- C1: for every byte buffer `B` and every window size `w`, the
concatenation of the chunks of `splitInChunks B w`, in order, equals
`B` exactly. -/
theorem splitInChunks_concat (B : List Nat) (w : Int) :
    (splitInChunks B w).flatten = B := by
  by_cases hw : 0 < w
  · rw [splitInChunks, if_pos hw]
    exact chunkLoop_flatten B.length B w.toNat (by omega) (Nat.le_refl _)
  · rw [splitInChunks, if_neg hw]
    by_cases hB : B.length < 1
    · rw [if_pos hB]
      simp
    · rw [if_neg hB]
      simp only [List.flatten_cons, List.flatten_nil, List.append_nil]
      exact List.take_append_drop 1 B

/-- C3: for every window size `w ≤ 0`, a non-empty buffer is split into
exactly the two chunks `B[:1]` and `B[1:]`, of lengths `1` and
`|B| - 1`, and an empty buffer yields exactly one empty chunk. -/
theorem splitInChunks_legacy (B : List Nat) (w : Int) (hw : w ≤ 0) :
    (B = [] → splitInChunks B w = [[]]) ∧
    (B ≠ [] → splitInChunks B w = [B.take 1, B.drop 1] ∧
      (B.take 1).length = 1 ∧ (B.drop 1).length = B.length - 1) := by
  constructor
  · intro hB
    subst hB
    rw [splitInChunks, if_neg (by omega)]
    rfl
  · intro hB
    have hlen : 0 < B.length := List.length_pos.mpr hB
    rw [splitInChunks, if_neg (by omega), if_neg (by omega)]
    refine ⟨rfl, ?_, ?_⟩
    · rw [List.length_take]; omega
    · rw [List.length_drop]

/-- Witness for C3 at `B = [5, 6, 7]`, `w = 0`. -/
theorem splitInChunks_legacy_witness :
    (([5, 6, 7] : List Nat) = [] → splitInChunks [5, 6, 7] 0 = [[]]) ∧
    (([5, 6, 7] : List Nat) ≠ [] → splitInChunks [5, 6, 7] 0 =
        [List.take 1 [5, 6, 7], List.drop 1 [5, 6, 7]] ∧
      (List.take 1 [5, 6, 7]).length = 1 ∧
      (List.drop 1 [5, 6, 7]).length = List.length [5, 6, 7] - 1) :=
  splitInChunks_legacy [5, 6, 7] 0 (by omega)

/-- C4: for every window size `w > 0`, every chunk except possibly the
last has length exactly `w`, every chunk (in particular the last) has
length in `[1, w]`, and the chunk sequence is empty iff `B` is empty. -/
theorem splitInChunks_window_lengths (B : List Nat) (w : Int) (hw : 0 < w) :
    (∀ c ∈ (splitInChunks B w).dropLast, c.length = w.toNat) ∧
    (∀ c ∈ splitInChunks B w, 1 ≤ c.length ∧ c.length ≤ w.toNat) ∧
    (splitInChunks B w = [] ↔ B = []) := by
  rw [splitInChunks, if_pos hw]
  have hsz : 0 < w.toNat := by omega
  refine ⟨?_, ?_, ?_⟩
  · exact chunkLoop_dropLast_length B.length B w.toNat hsz (Nat.le_refl _)
  · exact chunkLoop_length_mem B.length B w.toNat hsz (Nat.le_refl _)
  · cases B with
    | nil => simp [chunkLoop]
    | cons a l => exact chunkLoop_eq_nil_iff _ _ _ (Or.inl (by simp))

/-- Witness for C4 at `B = [9, 8, 7, 6, 5]`, `w = 2`. -/
theorem splitInChunks_window_lengths_witness :
    (∀ c ∈ (splitInChunks [9, 8, 7, 6, 5] 2).dropLast, c.length = Int.toNat 2) ∧
    (∀ c ∈ splitInChunks [9, 8, 7, 6, 5] 2, 1 ≤ c.length ∧ c.length ≤ Int.toNat 2) ∧
    (splitInChunks [9, 8, 7, 6, 5] 2 = [] ↔ ([9, 8, 7, 6, 5] : List Nat) = []) :=
  splitInChunks_window_lengths [9, 8, 7, 6, 5] 2 (by omega)

/-- Embeds `randomDelay` (https.go lines 139-156). When timing
randomization is on and min < max, Go draws
`rand.Intn(int(delayRange) + 1)`, a uniform value in
`[0, delayRange]`; the draw is modelled as `r % (delayRange + 1)` for
an environment-supplied seed `r`, whose image over all `r` is exactly
that interval. `some d` means the call sleeps for `d` milliseconds,
`none` that it returns without sleeping, which the source does both
when randomization is off and when min >= max. -/
def randomDelay (cfg : HttpsHandlerConfig) (r : Nat) : Option Nat :=
  if !cfg.TimingRandomization then none
  else if cfg.TimingDelayMax ≤ cfg.TimingDelayMin then none
  else some (cfg.TimingDelayMin + r % (cfg.TimingDelayMax - cfg.TimingDelayMin + 1))

/-- One observable operation of the tunnel orchestrator `Serve`. -/
inductive ServeEvent where
  | dialUpstream (port : Int)
  | closeClient
  | write200
  | readClientHello
  | startForwarder (upstreamToClient : Bool)
  | writeUpstream (chunk : List Nat)
  | sleep (ms : Nat)
  deriving DecidableEq

/-- The events of one `randomDelay` call: one sleep event, or none. -/
def delayEvents (cfg : HttpsHandlerConfig) (r : Nat) : List ServeEvent :=
  match randomDelay cfg r with
  | none => []
  | some d => [ServeEvent.sleep d]

/-- The tail of the `writeChunks` loop (https.go lines 287-304): every
chunk after the first is preceded by a `randomDelay` call. `rands`
supplies one PRNG seed per gap (`headD 0`: an unscripted seed is 0) and
`oks` the outcome of each `conn.Write` (`headD true`: an unscripted
write succeeds); a failed write aborts the loop, as in the source. -/
def writeRest (cfg : HttpsHandlerConfig) :
    List (List Nat) → List Nat → List Bool → List ServeEvent
  | [], _, _ => []
  | c :: cs, rands, oks =>
    delayEvents cfg (rands.headD 0) ++
    ServeEvent.writeUpstream c ::
    (if oks.headD true then writeRest cfg cs rands.tail oks.tail else [])

/-- Embeds `writeChunks` (https.go lines 287-304) as its event trace:
the first chunk is written with no preceding delay, then the loop
continues with `writeRest`. -/
def writeChunksTrace (cfg : HttpsHandlerConfig) :
    List (List Nat) → List Nat → List Bool → List ServeEvent
  | [], _, _ => []
  | c :: cs, rands, oks =>
    ServeEvent.writeUpstream c ::
    (if oks.headD true then writeRest cfg cs rands oks.tail else [])

/-- Embeds `strconv.Atoi` as used by `Serve`: an optional sign followed
by at least one decimal digit parses; anything else fails. The Go
64-bit range check is elided; no modelled claim exercises it. -/
def digitsToNat (l : List Char) : Nat :=
  l.foldl (fun acc c => acc * 10 + (c.toNat - 48)) 0

def goAtoi (s : String) : Option Int :=
  match s.toList with
  | [] => none
  | '+' :: rest =>
    if rest ≠ [] ∧ rest.all Char.isDigit then some (digitsToNat rest) else none
  | '-' :: rest =>
    if rest ≠ [] ∧ rest.all Char.isDigit then some (-(digitsToNat rest : Int)) else none
  | l =>
    if l.all Char.isDigit then some (digitsToNat l) else none

example : goAtoi "443" = some 443 := by decide
example : goAtoi "abc" = none := by decide
example : goAtoi "" = none := by decide

/-- The fields of `packet.HttpRequest` that `Serve` reads. -/
structure HttpRequest where
  version : String
  domain : String
  port : String

/-- The upstream port `Serve` dials (https.go lines 163-169): `h.port`
(443 as constructed) when `request.port` is empty, otherwise the
`strconv.Atoi` result, which is `0` when parsing fails — Go returns 0
together with the error, and `Serve` only logs the error (the message
says aborting) without returning. -/
def servePort (h : HttpsHandler) (reqPort : String) : Int :=
  if reqPort = "" then h.port
  else match goAtoi reqPort with
    | some p => p
    | none => 0

/-- Outcomes of the external calls `Serve` makes, supplied by the
environment: upstream dial, the 200 write, the ClientHello read
(`helloOk` = the read succeeded and the record is a ClientHello), the
raw ClientHello bytes, the PRNG seeds and the chunk-write outcomes. -/
structure ServeEnv where
  dialOk : Bool
  write200Ok : Bool
  helloOk : Bool
  clientHello : List Nat
  rands : List Nat
  chunkOks : List Bool

/-- Embeds `Serve` (https.go lines 158-216) as its trace of observable
operations in program order: port determination and upstream dial (on
dial failure the client socket is closed and Serve returns), the 200
response write, the ClientHello read, the start of the two forwarder
goroutines (upstream-to-client first), then the upstream write of the
ClientHello — chunked through `splitInChunks` and `writeChunks` when
`config.Exploit` is set, one plain write otherwise. `AllowedPatterns`
and the request domain are never consulted here, as in the source. -/
def serveTrace (h : HttpsHandler) (req : HttpRequest) (env : ServeEnv) : List ServeEvent :=
  if env.dialOk = false then
    [ServeEvent.dialUpstream (servePort h req.port), ServeEvent.closeClient]
  else
    ServeEvent.dialUpstream (servePort h req.port) ::
    ServeEvent.write200 ::
    if env.write200Ok = false then []
    else
      ServeEvent.readClientHello ::
      if env.helloOk = false then []
      else
        ServeEvent.startForwarder true ::
        ServeEvent.startForwarder false ::
        if h.config.Exploit then
          writeChunksTrace h.config (splitInChunks env.clientHello h.config.WindowSize)
            env.rands env.chunkOks
        else
          [ServeEvent.writeUpstream env.clientHello]

def isWrite200 : ServeEvent → Bool
  | ServeEvent.write200 => true
  | _ => false

def isClientRead : ServeEvent → Bool
  | ServeEvent.readClientHello => true
  | _ => false

def isForwarderStart : ServeEvent → Bool
  | ServeEvent.startForwarder _ => true
  | _ => false

def isUpstreamWrite : ServeEvent → Bool
  | ServeEvent.writeUpstream _ => true
  | _ => false

/-- The chunks written to the upstream socket, in order. -/
def upstreamWrites (tr : List ServeEvent) : List (List Nat) :=
  tr.filterMap fun e => match e with
    | ServeEvent.writeUpstream c => some c
    | _ => none

/-- No two consecutive events are both upstream writes: some event —
in a `writeChunks` trace necessarily a sleep — separates every pair of
consecutive chunk writes. -/
def consecutiveWritesSeparated : List ServeEvent → Bool
  | [] => true
  | [_] => true
  | e1 :: e2 :: rest =>
    !(isUpstreamWrite e1 && isUpstreamWrite e2) && consecutiveWritesSeparated (e2 :: rest)

/-- Every event satisfying `p` occurs strictly before every event
satisfying `q` in the trace. -/
def precedes (p q : ServeEvent → Bool) (tr : List ServeEvent) : Prop :=
  ∀ i j (hi : i < tr.length) (hj : j < tr.length),
    p (tr.get ⟨i, hi⟩) = true → q (tr.get ⟨j, hj⟩) = true → i < j

theorem precedes_of_split (p q : ServeEvent → Bool) (tr : List ServeEvent) (k : Nat)
    (hq : ∀ e ∈ tr.take k, q e = false) (hp : ∀ e ∈ tr.drop k, p e = false) :
    precedes p q tr := by
  intro i j hi hj hpi hqj
  have hik : i < k := by
    by_contra hge
    have hi' : i - k < (tr.drop k).length := by
      rw [List.length_drop]; omega
    have heq : (tr.drop k).get ⟨i - k, hi'⟩ = tr.get ⟨i, hi⟩ := by
      simp only [List.get_eq_getElem, List.getElem_drop]
      congr 1
      omega
    have hmem : tr.get ⟨i, hi⟩ ∈ tr.drop k := heq ▸ List.get_mem _ _ _
    rw [hp _ hmem] at hpi
    simp at hpi
  have hjk : k ≤ j := by
    by_contra hlt
    have hj' : j < (tr.take k).length := by
      rw [List.length_take]; omega
    have heq : (tr.take k).get ⟨j, hj'⟩ = tr.get ⟨j, hj⟩ := by
      simp only [List.get_eq_getElem, List.getElem_take]
    have hmem : tr.get ⟨j, hj⟩ ∈ tr.take k := heq ▸ List.get_mem _ _ _
    rw [hq _ hmem] at hqj
    simp at hqj
  omega

theorem precedes_of_parts (p q : ServeEvent → Bool) (l1 l2 : List ServeEvent)
    (hq : ∀ e ∈ l1, q e = false) (hp : ∀ e ∈ l2, p e = false) :
    precedes p q (l1 ++ l2) := by
  apply precedes_of_split p q (l1 ++ l2) l1.length
  · intro e he
    rw [List.take_left] at he
    exact hq e he
  · intro e he
    rw [List.drop_left] at he
    exact hp e he

theorem delayEvents_sleep (cfg : HttpsHandlerConfig) (r : Nat) :
    ∀ e ∈ delayEvents cfg r, ∃ d, e = ServeEvent.sleep d := by
  intro e he
  unfold delayEvents at he
  split at he
  · simp at he
  · simp at he
    exact ⟨_, he⟩

theorem writeRest_events (cfg : HttpsHandlerConfig) :
    ∀ (cs : List (List Nat)) (rands : List Nat) (oks : List Bool) (e : ServeEvent),
      e ∈ writeRest cfg cs rands oks →
      (∃ b, e = ServeEvent.writeUpstream b) ∨ (∃ d, e = ServeEvent.sleep d)
  | [], _, _ => by
    intro e he
    simp [writeRest] at he
  | c :: cs, rands, oks => by
    intro e he
    simp only [writeRest] at he
    rcases List.mem_append.mp he with h1 | h1
    · exact Or.inr (delayEvents_sleep cfg _ e h1)
    · rcases List.mem_cons.mp h1 with h2 | h2
      · exact Or.inl ⟨c, h2⟩
      · split at h2
        · exact writeRest_events cfg cs rands.tail oks.tail e h2
        · simp at h2

theorem writeChunksTrace_events (cfg : HttpsHandlerConfig) :
    ∀ (cs : List (List Nat)) (rands : List Nat) (oks : List Bool) (e : ServeEvent),
      e ∈ writeChunksTrace cfg cs rands oks →
      (∃ b, e = ServeEvent.writeUpstream b) ∨ (∃ d, e = ServeEvent.sleep d)
  | [], _, _ => by
    intro e he
    simp [writeChunksTrace] at he
  | c :: cs, rands, oks => by
    intro e he
    simp only [writeChunksTrace] at he
    rcases List.mem_cons.mp he with h2 | h2
    · exact Or.inl ⟨c, h2⟩
    · split at h2
      · exact writeRest_events cfg cs rands oks.tail e h2
      · simp at h2

/-- C7: in every successful run of `Serve` — dial, 200 write and
ClientHello read all succeed — the 200 response is written to the
client strictly before any read from the client, and both forwarder
loops are started strictly before any ClientHello byte, chunked or
plain, is written upstream. -/
theorem serve_ordering (h : HttpsHandler) (req : HttpRequest) (env : ServeEnv)
    (hd : env.dialOk = true) (hw : env.write200Ok = true) (hh : env.helloOk = true) :
    precedes isWrite200 isClientRead (serveTrace h req env) ∧
    precedes isForwarderStart isUpstreamWrite (serveTrace h req env) := by
  obtain ⟨tl, htl, h200, hsf⟩ :
      ∃ tl, serveTrace h req env =
        [ServeEvent.dialUpstream (servePort h req.port), ServeEvent.write200,
         ServeEvent.readClientHello, ServeEvent.startForwarder true,
         ServeEvent.startForwarder false] ++ tl ∧
        (∀ e ∈ tl, isWrite200 e = false) ∧ (∀ e ∈ tl, isForwarderStart e = false) := by
    refine ⟨if h.config.Exploit then
        writeChunksTrace h.config (splitInChunks env.clientHello h.config.WindowSize)
          env.rands env.chunkOks
      else [ServeEvent.writeUpstream env.clientHello], ?_, ?_, ?_⟩
    · rw [serveTrace, hd, hw, hh]
      simp
    · intro e he
      split at he
      · rcases writeChunksTrace_events h.config _ _ _ e he with ⟨b, rfl⟩ | ⟨d, rfl⟩ <;> rfl
      · rcases List.mem_singleton.mp he with rfl
        rfl
    · intro e he
      split at he
      · rcases writeChunksTrace_events h.config _ _ _ e he with ⟨b, rfl⟩ | ⟨d, rfl⟩ <;> rfl
      · rcases List.mem_singleton.mp he with rfl
        rfl
  rw [htl]
  constructor
  · exact precedes_of_parts _ _
      [ServeEvent.dialUpstream (servePort h req.port), ServeEvent.write200]
      (ServeEvent.readClientHello :: ServeEvent.startForwarder true ::
        ServeEvent.startForwarder false :: tl)
      (by intro e he; fin_cases he <;> rfl)
      (by
        intro e he
        rcases List.mem_cons.mp he with rfl | he
        · rfl
        rcases List.mem_cons.mp he with rfl | he
        · rfl
        rcases List.mem_cons.mp he with rfl | he
        · rfl
        exact h200 e he)
  · exact precedes_of_parts _ _
      [ServeEvent.dialUpstream (servePort h req.port), ServeEvent.write200,
       ServeEvent.readClientHello, ServeEvent.startForwarder true,
       ServeEvent.startForwarder false] tl
      (by intro e he; fin_cases he <;> rfl)
      (by intro e he; exact hsf e he)

/-- A CONNECT request with an empty port token. -/
def reqOther : HttpRequest :=
  { version := "HTTP/1.1", domain := "other.com", port := "" }

/-- An environment where dial, 200 write and ClientHello read succeed,
the ClientHello is 3 bytes, and all chunk writes succeed. -/
def envAllOk : ServeEnv :=
  { dialOk := true, write200Ok := true, helloOk := true
    clientHello := [1, 2, 3], rands := [0], chunkOks := [] }

/-- Witness for C7: the orderings hold on a concrete successful run. -/
theorem serve_ordering_witness :
    precedes isWrite200 isClientRead (serveTrace (NewHttpsHandler []) reqOther envAllOk) ∧
    precedes isForwarderStart isUpstreamWrite
      (serveTrace (NewHttpsHandler []) reqOther envAllOk) :=
  serve_ordering (NewHttpsHandler []) reqOther envAllOk rfl rfl rfl

theorem upstreamWrites_cons_write (c : List Nat) (tr : List ServeEvent) :
    upstreamWrites (ServeEvent.writeUpstream c :: tr) = c :: upstreamWrites tr := rfl

theorem upstreamWrites_append (t1 t2 : List ServeEvent) :
    upstreamWrites (t1 ++ t2) = upstreamWrites t1 ++ upstreamWrites t2 :=
  List.filterMap_append t1 t2 _

theorem upstreamWrites_delayEvents (cfg : HttpsHandlerConfig) (r : Nat) :
    upstreamWrites (delayEvents cfg r) = [] := by
  unfold delayEvents
  split <;> rfl

theorem headD_true_of_all (oks : List Bool) (hok : ∀ b ∈ oks, b = true) :
    oks.headD true = true := by
  cases oks with
  | nil => rfl
  | cons b t => exact hok b (List.mem_cons_self b t)

theorem all_tail_of_all (oks : List Bool) (hok : ∀ b ∈ oks, b = true) :
    ∀ b ∈ oks.tail, b = true := by
  intro b hb
  cases oks with
  | nil => simp at hb
  | cons x t => exact hok b (List.mem_cons_of_mem x hb)

theorem upstreamWrites_writeRest (cfg : HttpsHandlerConfig) :
    ∀ (cs : List (List Nat)) (rands : List Nat) (oks : List Bool),
      (∀ b ∈ oks, b = true) →
      upstreamWrites (writeRest cfg cs rands oks) = cs
  | [], _, _ => by
    intro _
    rfl
  | c :: cs, rands, oks => by
    intro hok
    simp only [writeRest, headD_true_of_all oks hok, if_true]
    rw [upstreamWrites_append, upstreamWrites_delayEvents, upstreamWrites_cons_write,
      upstreamWrites_writeRest cfg cs rands.tail oks.tail (all_tail_of_all oks hok)]
    rfl

theorem upstreamWrites_writeChunksTrace (cfg : HttpsHandlerConfig)
    (cs : List (List Nat)) (rands : List Nat) (oks : List Bool)
    (hok : ∀ b ∈ oks, b = true) :
    upstreamWrites (writeChunksTrace cfg cs rands oks) = cs := by
  cases cs with
  | nil => rfl
  | cons c cs =>
    simp only [writeChunksTrace, headD_true_of_all oks hok, if_true]
    rw [upstreamWrites_cons_write,
      upstreamWrites_writeRest cfg cs rands oks.tail (all_tail_of_all oks hok)]

theorem serveTrace_success (h : HttpsHandler) (req : HttpRequest) (env : ServeEnv)
    (hd : env.dialOk = true) (hw : env.write200Ok = true) (hh : env.helloOk = true) :
    serveTrace h req env =
      ServeEvent.dialUpstream (servePort h req.port) :: ServeEvent.write200 ::
      ServeEvent.readClientHello :: ServeEvent.startForwarder true ::
      ServeEvent.startForwarder false ::
      (if h.config.Exploit then
        writeChunksTrace h.config (splitInChunks env.clientHello h.config.WindowSize)
          env.rands env.chunkOks
      else [ServeEvent.writeUpstream env.clientHello]) := by
  rw [serveTrace, hd, hw, hh]
  simp

/-- C2 amended: `Serve` never consults `AllowedPatterns` or the request
hostname when choosing the write path: whenever the exploit is enabled
the ClientHello goes upstream chunked through `splitInChunks`, and the
single plain write happens exactly when the exploit is disabled. -/
theorem serve_write_path (h : HttpsHandler) (req : HttpRequest) (env : ServeEnv)
    (hd : env.dialOk = true) (hw : env.write200Ok = true) (hh : env.helloOk = true)
    (hok : ∀ b ∈ env.chunkOks, b = true) :
    (h.config.Exploit = false →
      upstreamWrites (serveTrace h req env) = [env.clientHello]) ∧
    (h.config.Exploit = true →
      upstreamWrites (serveTrace h req env) =
        splitInChunks env.clientHello h.config.WindowSize) := by
  rw [serveTrace_success h req env hd hw hh]
  constructor
  · intro hE
    rw [hE]
    rfl
  · intro hE
    rw [hE, if_pos rfl]
    show upstreamWrites (writeChunksTrace h.config
      (splitInChunks env.clientHello h.config.WindowSize) env.rands env.chunkOks) = _
    exact upstreamWrites_writeChunksTrace h.config _ env.rands env.chunkOks hok

/-- A handler built with the exploit on, window size 2 and one allowed
pattern that matches only the hostname example.com. -/
def handlerC2 : HttpsHandler :=
  NewHttpsHandler [WithWindowSize 2,
    WithAllowedPatterns [fun host => host == "example.com"], WithExploit true]

/-- C2 counterexample: the exploit is enabled, `AllowedPatterns` is
non-empty, the hostname other.com matches no pattern — yet `Serve`
writes the ClientHello upstream in two chunks, not in a single plain
write call. -/
theorem serve_pattern_miss_counterexample :
    handlerC2.config.Exploit = true ∧
    handlerC2.config.AllowedPatterns ≠ [] ∧
    (∀ p ∈ handlerC2.config.AllowedPatterns, p reqOther.domain = false) ∧
    upstreamWrites (serveTrace handlerC2 reqOther envAllOk) = [[1, 2], [3]] ∧
    (upstreamWrites (serveTrace handlerC2 reqOther envAllOk)).length ≠ 1 := by
  refine ⟨rfl, ?_, ?_, rfl, by decide⟩
  · exact List.cons_ne_nil _ _
  · intro p hp
    rcases List.mem_singleton.mp hp with rfl
    decide

/-- Witness for the amended C2 on a concrete successful run. -/
theorem serve_write_path_witness :
    (handlerC2.config.Exploit = false →
      upstreamWrites (serveTrace handlerC2 reqOther envAllOk) = [envAllOk.clientHello]) ∧
    (handlerC2.config.Exploit = true →
      upstreamWrites (serveTrace handlerC2 reqOther envAllOk) =
        splitInChunks envAllOk.clientHello handlerC2.config.WindowSize) :=
  serve_write_path handlerC2 reqOther envAllOk rfl rfl rfl
    (by intro b hb; simp [envAllOk] at hb)

theorem randomDelay_eq (cfg : HttpsHandlerConfig) (ht : cfg.TimingRandomization = true)
    (hlt : cfg.TimingDelayMin < cfg.TimingDelayMax) (r : Nat) :
    randomDelay cfg r =
      some (cfg.TimingDelayMin + r % (cfg.TimingDelayMax - cfg.TimingDelayMin + 1)) := by
  unfold randomDelay
  rw [ht]
  simp only [Bool.not_true, Bool.false_eq_true, if_false]
  rw [if_neg (by omega)]

theorem randomDelay_none_of_ge (cfg : HttpsHandlerConfig)
    (hge : cfg.TimingDelayMax ≤ cfg.TimingDelayMin) (r : Nat) :
    randomDelay cfg r = none := by
  unfold randomDelay
  rw [if_pos hge]
  split <;> rfl

theorem randomDelay_some_bounds (cfg : HttpsHandlerConfig) (r d : Nat)
    (h : randomDelay cfg r = some d) :
    cfg.TimingDelayMin ≤ d ∧ d ≤ cfg.TimingDelayMax := by
  unfold randomDelay at h
  split at h
  · cases h
  · split at h
    · cases h
    · rename_i hge
      have hmod : r % (cfg.TimingDelayMax - cfg.TimingDelayMin + 1) <
          cfg.TimingDelayMax - cfg.TimingDelayMin + 1 :=
        Nat.mod_lt r (by omega)
      injection h with h
      omega

theorem randomDelay_surjective (cfg : HttpsHandlerConfig)
    (ht : cfg.TimingRandomization = true)
    (hlt : cfg.TimingDelayMin < cfg.TimingDelayMax) (d : Nat)
    (h1 : cfg.TimingDelayMin ≤ d) (h2 : d ≤ cfg.TimingDelayMax) :
    randomDelay cfg (d - cfg.TimingDelayMin) = some d := by
  rw [randomDelay_eq cfg ht hlt]
  have hmod : (d - cfg.TimingDelayMin) % (cfg.TimingDelayMax - cfg.TimingDelayMin + 1) =
      d - cfg.TimingDelayMin := Nat.mod_eq_of_lt (by omega)
  rw [hmod]
  congr 1
  omega

theorem writeRest_separated (cfg : HttpsHandlerConfig)
    (ht : cfg.TimingRandomization = true)
    (hlt : cfg.TimingDelayMin < cfg.TimingDelayMax) :
    ∀ (cs : List (List Nat)) (c : List Nat) (rands : List Nat) (oks : List Bool),
      consecutiveWritesSeparated
        (ServeEvent.writeUpstream c :: writeRest cfg cs rands oks) = true
  | [] => by
    intro c rands oks
    rfl
  | c2 :: cs => by
    intro c rands oks
    have hde : delayEvents cfg (rands.headD 0) =
        [ServeEvent.sleep (cfg.TimingDelayMin +
          (rands.headD 0) % (cfg.TimingDelayMax - cfg.TimingDelayMin + 1))] := by
      unfold delayEvents
      rw [randomDelay_eq cfg ht hlt]
    simp only [writeRest, hde, List.singleton_append]
    cases hok : oks.headD true with
    | true =>
      simp only [if_true]
      simp only [consecutiveWritesSeparated, isUpstreamWrite, Bool.and_false,
        Bool.false_and, Bool.not_false, Bool.true_and]
      exact writeRest_separated cfg ht hlt cs c2 rands.tail oks.tail
    | false =>
      simp only [Bool.false_eq_true, if_false]
      simp [consecutiveWritesSeparated, isUpstreamWrite]

theorem writeChunksTrace_separated (cfg : HttpsHandlerConfig)
    (ht : cfg.TimingRandomization = true)
    (hlt : cfg.TimingDelayMin < cfg.TimingDelayMax)
    (chunks : List (List Nat)) (rands : List Nat) (oks : List Bool) :
    consecutiveWritesSeparated (writeChunksTrace cfg chunks rands oks) = true := by
  cases chunks with
  | nil => rfl
  | cons c cs =>
    simp only [writeChunksTrace]
    cases hok : oks.headD true with
    | true =>
      simp only [if_true]
      exact writeRest_separated cfg ht hlt cs c rands oks.tail
    | false =>
      simp only [Bool.false_eq_true, if_false]
      rfl

theorem sleep_mem_writeRest (cfg : HttpsHandlerConfig) :
    ∀ (cs : List (List Nat)) (rands : List Nat) (oks : List Bool) (d : Nat),
      ServeEvent.sleep d ∈ writeRest cfg cs rands oks →
      ∃ r, randomDelay cfg r = some d
  | [], _, _ => by
    intro d hd
    simp [writeRest] at hd
  | c :: cs, rands, oks => by
    intro d hd
    simp only [writeRest] at hd
    rcases List.mem_append.mp hd with h1 | h1
    · refine ⟨rands.headD 0, ?_⟩
      unfold delayEvents at h1
      split at h1
      · simp at h1
      · rename_i d' hd'
        simp at h1
        rw [h1]
        exact hd'
    · rcases List.mem_cons.mp h1 with h2 | h2
      · cases h2
      · split at h2
        · exact sleep_mem_writeRest cfg cs rands.tail oks.tail d h2
        · simp at h2

theorem sleep_mem_writeChunksTrace (cfg : HttpsHandlerConfig)
    (chunks : List (List Nat)) (rands : List Nat) (oks : List Bool) (d : Nat)
    (hd : ServeEvent.sleep d ∈ writeChunksTrace cfg chunks rands oks) :
    ∃ r, randomDelay cfg r = some d := by
  cases chunks with
  | nil => simp [writeChunksTrace] at hd
  | cons c cs =>
    simp only [writeChunksTrace] at hd
    rcases List.mem_cons.mp hd with h2 | h2
    · cases h2
    · split at h2
      · exact sleep_mem_writeRest cfg cs rands oks.tail d h2
      · simp at h2

/-- C5 amended: with timing randomization enabled, a sleep separates
every pair of consecutive chunk writes exactly when min < max — each
sleep lasts between min and max milliseconds inclusive, and every value
of that inclusive range is a possible delay; when min ≥ max (including
min = max, since `randomDelay` returns early on min ≥ max) no sleep
ever occurs. -/
theorem writeChunks_delay_behavior (cfg : HttpsHandlerConfig) (chunks : List (List Nat))
    (rands : List Nat) (oks : List Bool) (ht : cfg.TimingRandomization = true) :
    (cfg.TimingDelayMin < cfg.TimingDelayMax →
      consecutiveWritesSeparated (writeChunksTrace cfg chunks rands oks) = true ∧
      (∀ d, ServeEvent.sleep d ∈ writeChunksTrace cfg chunks rands oks →
        cfg.TimingDelayMin ≤ d ∧ d ≤ cfg.TimingDelayMax) ∧
      (∀ d, cfg.TimingDelayMin ≤ d → d ≤ cfg.TimingDelayMax →
        ∃ r, randomDelay cfg r = some d)) ∧
    (cfg.TimingDelayMax ≤ cfg.TimingDelayMin →
      ∀ d, ServeEvent.sleep d ∉ writeChunksTrace cfg chunks rands oks) := by
  constructor
  · intro hlt
    refine ⟨writeChunksTrace_separated cfg ht hlt chunks rands oks, ?_, ?_⟩
    · intro d hd
      obtain ⟨r, hr⟩ := sleep_mem_writeChunksTrace cfg chunks rands oks d hd
      exact randomDelay_some_bounds cfg r d hr
    · intro d h1 h2
      exact ⟨d - cfg.TimingDelayMin, randomDelay_surjective cfg ht hlt d h1 h2⟩
  · intro hge d hd
    obtain ⟨r, hr⟩ := sleep_mem_writeChunksTrace cfg chunks rands oks d hd
    rw [randomDelay_none_of_ge cfg hge r] at hr
    cases hr

/-- The configuration a handler gets from the constructor with timing
randomization on and min = max = 5, which validation accepts. -/
def cfgEqualDelays : HttpsHandlerConfig :=
  (NewHttpsHandler [WithTimingRandomization 5 5]).config

/-- C5 counterexample: timing randomization is on and min ≤ max
(min = max = 5), two chunks are written, yet no sleep at all occurs
between the two writes — `randomDelay` returns without sleeping
whenever min ≥ max. -/
theorem writeChunks_min_eq_max_counterexample :
    cfgEqualDelays.TimingRandomization = true ∧
    cfgEqualDelays.TimingDelayMin ≤ cfgEqualDelays.TimingDelayMax ∧
    writeChunksTrace cfgEqualDelays [[0], [1]] [3] [] =
      [ServeEvent.writeUpstream [0], ServeEvent.writeUpstream [1]] ∧
    consecutiveWritesSeparated (writeChunksTrace cfgEqualDelays [[0], [1]] [3] []) = false ∧
    (∀ d, ServeEvent.sleep d ∉ writeChunksTrace cfgEqualDelays [[0], [1]] [3] []) := by
  have htr : writeChunksTrace cfgEqualDelays [[0], [1]] [3] [] =
      [ServeEvent.writeUpstream [0], ServeEvent.writeUpstream [1]] := rfl
  refine ⟨rfl, by decide, htr, by rw [htr]; rfl, ?_⟩
  intro d hd
  rw [htr] at hd
  simp at hd

/-- The configuration from the constructor with the short timing preset. -/
def cfgShortTiming : HttpsHandlerConfig :=
  (NewHttpsHandler [WithTimingRandomization 5 25]).config

/-- Witness for the amended C5 at a concrete configuration and chunk list. -/
theorem writeChunks_delay_behavior_witness :
    (cfgShortTiming.TimingDelayMin < cfgShortTiming.TimingDelayMax →
      consecutiveWritesSeparated (writeChunksTrace cfgShortTiming [[0], [1]] [3] []) = true ∧
      (∀ d, ServeEvent.sleep d ∈ writeChunksTrace cfgShortTiming [[0], [1]] [3] [] →
        cfgShortTiming.TimingDelayMin ≤ d ∧ d ≤ cfgShortTiming.TimingDelayMax) ∧
      (∀ d, cfgShortTiming.TimingDelayMin ≤ d → d ≤ cfgShortTiming.TimingDelayMax →
        ∃ r, randomDelay cfgShortTiming r = some d)) ∧
    (cfgShortTiming.TimingDelayMax ≤ cfgShortTiming.TimingDelayMin →
      ∀ d, ServeEvent.sleep d ∉ writeChunksTrace cfgShortTiming [[0], [1]] [3] []) :=
  writeChunks_delay_behavior cfgShortTiming [[0], [1]] [3] [] rfl

/-- A CONNECT request whose port token does not parse. -/
def reqBadPort : HttpRequest :=
  { version := "HTTP/1.1", domain := "example.com", port := "abc" }

/-- C6: `Serve` logs aborting on a port parse failure but does not
return. `request.port` non-empty and parseable is used as the dial
port, and 443 is used when empty; but with the unparsable port token
abc the upstream dial is still attempted — with port 0, the value Go
Atoi returns alongside its error — instead of aborting the tunnel. -/
theorem serve_dials_despite_port_parse_failure :
    goAtoi reqBadPort.port = none ∧
    servePort (NewHttpsHandler []) "" = 443 ∧
    servePort (NewHttpsHandler []) "8443" = 8443 ∧
    servePort (NewHttpsHandler []) reqBadPort.port = 0 ∧
    (serveTrace (NewHttpsHandler []) reqBadPort envAllOk).head? =
      some (ServeEvent.dialUpstream 0) :=
  ⟨rfl, rfl, rfl, rfl, rfl⟩

/-- C8: `Validate` reports an error exactly for a negative timeout, a
negative window size, or timing randomization with min > max; and when
the options yield a configuration that fails validation, the
constructor silently keeps the default configuration instead of the
supplied one. -/
theorem validate_iff_and_constructor_defaults (c : HttpsHandlerConfig)
    (opts : List HttpsHandlerOption) :
    (c.Validate.isSome ↔
      (c.Timeout < 0 ∨ c.WindowSize < 0 ∨
        (c.TimingRandomization = true ∧ c.TimingDelayMax < c.TimingDelayMin))) ∧
    ((opts.foldl (fun c opt => opt c) DefaultHttpsHandlerConfig).Validate.isSome →
      (NewHttpsHandler opts).config = DefaultHttpsHandlerConfig) := by
  constructor
  · by_cases h1 : c.Timeout < 0
    · rw [HttpsHandlerConfig.Validate, if_pos h1]
      simp [h1]
    · by_cases h2 : c.WindowSize < 0
      · rw [HttpsHandlerConfig.Validate, if_neg h1, if_pos h2]
        simp [h2]
      · by_cases h3 : c.TimingRandomization ∧ c.TimingDelayMax < c.TimingDelayMin
        · rw [HttpsHandlerConfig.Validate, if_neg h1, if_neg h2, if_pos h3]
          simp only [Option.isSome_some, true_iff]
          exact Or.inr (Or.inr ⟨h3.1, h3.2⟩)
        · rw [HttpsHandlerConfig.Validate, if_neg h1, if_neg h2, if_neg h3]
          simp only [Option.isSome_none, Bool.false_eq_true, false_iff]
          push_neg at h3
          rintro (hc | hc | hc)
          · exact h1 hc
          · exact h2 hc
          · exact absurd hc.2 (Nat.not_lt.mpr (Nat.le_of_not_lt (fun hlt => absurd (h3 hc.1) (Nat.not_le.mpr hlt))))
  · intro hv
    obtain ⟨msg, hmsg⟩ := Option.isSome_iff_exists.mp hv
    simp only [NewHttpsHandler]
    rw [hmsg]

/-- A configuration validation rejects: negative window size. -/
def cfgInvalidWindow : List HttpsHandlerOption := [WithWindowSize (-4), WithTimeout 7]

/-- Sanity check that the constructor really discards an invalid
configuration: the supplied timeout 7 is replaced by the default 0. -/
example : (NewHttpsHandler cfgInvalidWindow).config.Timeout = 0 := rfl

example : (NewHttpsHandler cfgInvalidWindow).config = DefaultHttpsHandlerConfig := rfl

/-- The deferred teardown of one `communicate` forwarder loop
(https.go lines 222-227): whenever the loop exits — read error, write
error, or deadline expiry — it issues a Close call on its `from`
socket and then on its `to` socket. Sockets are named by ids. -/
def communicateCloses (fromSock toSock : Nat) : List Nat :=
  [fromSock, toSock]

/-- The Close calls issued for one tunnel once both forwarder loops
started by `Serve` (https.go lines 199-200) have exited: the
upstream-to-client loop closes upstream then client, the
client-to-upstream loop closes client then upstream. -/
def tunnelCloseCalls (client upstream : Nat) : List Nat :=
  communicateCloses upstream client ++ communicateCloses client upstream

/-- C9 counterexample: for the tunnel with client socket 0 and upstream
socket 1, by the time both forwarder loops have exited each socket has
received two Close calls, not exactly one. -/
theorem tunnel_double_close_counterexample :
    (tunnelCloseCalls 0 1).count 0 = 2 ∧
    (tunnelCloseCalls 0 1).count 1 = 2 ∧
    ¬ (tunnelCloseCalls 0 1).count 0 = 1 := by
  refine ⟨rfl, rfl, by decide⟩

/-- C9 amended: by the time both forwarder loops have exited, each of
the two sockets has received a Close call exactly twice — once from
each loop, so at least once — rather than exactly once; Go tolerates
the second Close, which returns an error on an already-closed socket. -/
theorem tunnel_close_counts (client upstream : Nat) (hne : client ≠ upstream) :
    (tunnelCloseCalls client upstream).count client = 2 ∧
    (tunnelCloseCalls client upstream).count upstream = 2 := by
  unfold tunnelCloseCalls communicateCloses
  constructor
  · simp [List.count_cons, List.count_append, hne, Ne.symm hne]
  · simp [List.count_cons, List.count_append, hne, Ne.symm hne]

/-- Witness for the amended C9 at sockets 0 and 1. -/
theorem tunnel_close_counts_witness :
    (tunnelCloseCalls 0 1).count 0 = 2 ∧ (tunnelCloseCalls 0 1).count 1 = 2 :=
  tunnel_close_counts 0 1 (by decide)

/-- Embeds `TimingFlag` from the util package: the value given to the
random-timing CLI flag and whether the flag was given at all. -/
structure TimingFlag where
  Value : String
  IsSet : Bool

/-- Embeds `Args` from the util package. Go unsigned integer fields
are modelled as `Nat`; the allowed-pattern strings are kept as
strings. -/
structure Args where
  Addr : String
  Port : Nat
  DnsAddr : String
  DnsPort : Nat
  DnsIPv4Only : Bool
  EnableDoh : Bool
  Debug : Bool
  Silent : Bool
  SystemProxy : Bool
  Timeout : Nat
  AllowedPattern : List String
  WindowSize : Nat
  Version : Bool
  RandomTiming : TimingFlag

/-- Embeds the util `Config` record. `AllowedPatterns` keeps the
pattern source strings; `regexp.MustCompile` is external to the core. -/
structure Config where
  Addr : String
  Port : Int
  DnsAddr : String
  DnsPort : Int
  DnsIPv4Only : Bool
  EnableDoh : Bool
  Debug : Bool
  Silent : Bool
  SystemProxy : Bool
  Timeout : Int
  WindowSize : Int
  AllowedPatterns : List String
  TimingRandomization : Bool
  TimingDelayMin : Nat
  TimingDelayMax : Nat

/-- Embeds `parseAllowedPattern`: each pattern string is compiled by
`regexp.MustCompile`; the compiled pattern is represented here by its
source string, so the function is the identity on the list. -/
def parseAllowedPattern (patterns : List String) : List String :=
  patterns

/-- Embeds `Config.Load` from the util package: every field is copied
from `Args`; when the random-timing flag is set, an empty value
defaults to the preset short, then the switch maps short to (5, 25),
medium to (25, 50), long to (50, 100) and anything else to (5, 25);
when the flag is not set, randomization is off and both delays are 0. -/
def Config.Load (args : Args) : Config :=
  let timing : Bool × Nat × Nat :=
    if args.RandomTiming.IsSet then
      let preset := if args.RandomTiming.Value = "" then "short" else args.RandomTiming.Value
      if preset = "short" then (true, 5, 25)
      else if preset = "medium" then (true, 25, 50)
      else if preset = "long" then (true, 50, 100)
      else (true, 5, 25)
    else (false, 0, 0)
  { Addr := args.Addr
    Port := (args.Port : Int)
    DnsAddr := args.DnsAddr
    DnsPort := (args.DnsPort : Int)
    DnsIPv4Only := args.DnsIPv4Only
    EnableDoh := args.EnableDoh
    Debug := args.Debug
    Silent := args.Silent
    SystemProxy := args.SystemProxy
    Timeout := (args.Timeout : Int)
    WindowSize := (args.WindowSize : Int)
    AllowedPatterns := parseAllowedPattern args.AllowedPattern
    TimingRandomization := timing.1
    TimingDelayMin := timing.2.1
    TimingDelayMax := timing.2.2 }

/-- C10: when the random-timing flag is set with a value that is none
of short, medium, long — the empty string included — `Config.Load`
enables timing randomization with the short preset (5, 25); when the
flag is not set it disables randomization and zeroes both delays. -/
theorem configLoad_timing (args : Args) :
    (args.RandomTiming.IsSet = true →
      args.RandomTiming.Value ≠ "short" →
      args.RandomTiming.Value ≠ "medium" →
      args.RandomTiming.Value ≠ "long" →
      (Config.Load args).TimingRandomization = true ∧
      (Config.Load args).TimingDelayMin = 5 ∧
      (Config.Load args).TimingDelayMax = 25) ∧
    (args.RandomTiming.IsSet = false →
      (Config.Load args).TimingRandomization = false ∧
      (Config.Load args).TimingDelayMin = 0 ∧
      (Config.Load args).TimingDelayMax = 0) := by
  constructor
  · intro hset h1 h2 h3
    by_cases hemp : args.RandomTiming.Value = ""
    · simp [Config.Load, hset, hemp]
    · simp [Config.Load, hset, hemp, h1, h2, h3]
  · intro hset
    simp [Config.Load, hset]

end SpoofDPI
